import Mathlib

/-!
Verification of the session/context and retrieval-scoring core of a
document-grounded question-answering assistant.

The Python source is shallowly embedded: strings become `List Char`,
`dict`s become insertion-ordered association lists, `datetime.now()` /
`time.time()` become explicit parameters, and the possibility of an I/O
write raising becomes an explicit `Bool` parameter describing whether the
write succeeded.  Floating point scores (always of the form `m / n` for
small naturals in the source) are embedded as rationals.
-/

set_option maxRecDepth 8000

/- Batteries marks the `Rat` field operations `@[irreducible]`, which
blocks `decide` from evaluating concrete rational scores; restore the
default reducibility (the kernel itself is unaffected). -/
set_option allowUnsafeReducibility true
attribute [semireducible] Rat.mul Rat.inv Rat.div Rat.normalize Rat.blt Rat.add Rat.sub Rat.neg

/-- Text is embedded as a list of characters (Python `str`). -/
abbrev Str := List Char

/-- Turn a Lean string literal into the embedded text type. -/
def str (s : String) : Str := s.data

/-- Python `str.lower()` (character-wise lowercasing). -/
def lower (s : Str) : Str := s.map Char.toLower

/-- True when the needle occurs at the very start of the haystack
(the building block of Python substring tests). -/
def charsPre : Str → Str → Bool
  | [], _ => true
  | _ :: _, [] => false
  | a :: as, b :: bs => if a = b then charsPre as bs else false

/-- Python `needle in haystack`: substring containment. -/
def containsSub (needle : Str) : Str → Bool
  | [] => charsPre needle []
  | c :: rest => charsPre needle (c :: rest) || containsSub needle rest

/-- Fuelled worker for `countOcc`; the fuel is an upper bound on the number
of scanning steps (each step consumes at least one character). -/
def countOccFuel (needle : Str) : Nat → Str → Nat
  | 0, _ => 0
  | _ + 1, [] => 0
  | fuel + 1, c :: rest =>
    if charsPre needle (c :: rest) then
      1 + countOccFuel needle fuel (rest.drop (needle.length - 1))
    else
      countOccFuel needle fuel rest

/-- Python `haystack.count(needle)`: number of non-overlapping occurrences,
scanning left to right (Python returns `len+1` for an empty needle). -/
def countOcc (needle hay : Str) : Nat :=
  if needle = [] then hay.length + 1 else countOccFuel needle hay.length hay

/-- Worker for `splitWs`; `cur` holds the current token reversed. -/
def splitWsAux : Str → Str → List Str
  | cur, [] => if cur = [] then [] else [cur.reverse]
  | cur, c :: rest =>
    if c.isWhitespace then
      if cur = [] then splitWsAux [] rest else cur.reverse :: splitWsAux [] rest
    else
      splitWsAux (c :: cur) rest

/-- Python `str.split()` with no argument: split on whitespace runs,
dropping empty pieces. -/
def splitWs (s : Str) : List Str := splitWsAux [] s

/-- Python `str.strip()`: remove leading and trailing whitespace. -/
def stripWs (s : Str) : Str :=
  ((s.dropWhile Char.isWhitespace).reverse.dropWhile Char.isWhitespace).reverse

/-- The last `k` elements of a list (Python `l[-k:]`, and `l` itself when
`l` is shorter than `k`). -/
def lastN {α : Type} (k : Nat) (l : List α) : List α := l.drop (l.length - k)

/-- Python decimal rendering of a natural number (`str(i)` / f-strings). -/
def natStr (n : Nat) : Str := (Nat.repr n).data

/-- Python `d[k] = v` on an insertion-ordered dict embedded as an
association list: update in place if the key exists, else append. -/
def dictInsert {α : Type} (k : Str) (v : α) : List (Str × α) → List (Str × α)
  | [] => [(k, v)]
  | p :: rest => if p.1 = k then (k, v) :: rest else p :: dictInsert k v rest

/-- Python `d.get(k)` on the association-list embedding of a dict. -/
def dictGet {α : Type} (k : Str) : List (Str × α) → Option α
  | [] => none
  | p :: rest => if p.1 = k then some p.2 else dictGet k rest

/-- Python `del d[k]` on the association-list embedding of a dict. -/
def dictDel {α : Type} (k : Str) (l : List (Str × α)) : List (Str × α) :=
  l.filter (fun p => if p.1 = k then false else true)

/-- Insert `x` into a list that is sorted descending by `key`, placing it
before the first element of not-larger key (so an element inserted in
front of equal-keyed later elements, matching a stable descending sort). -/
def insertDesc {α β : Type} [LinearOrder β] (key : α → β) (x : α) : List α → List α
  | [] => [x]
  | y :: ys => if key x < key y then y :: insertDesc key x ys else x :: y :: ys

/-- Stable descending sort by `key`: the embedding of Python
`list.sort(key=..., reverse=True)` (Timsort is stable, and `reverse=True`
inverts the comparison without disturbing equal elements). -/
def sortDescBy {α β : Type} [LinearOrder β] (key : α → β) (l : List α) : List α :=
  l.foldr (insertDesc key) []

/-- A chunk as stored by `RAGService` (a langchain `Document`):
`page_content` plus a string-valued metadata dict. -/
structure Doc where
  page_content : Str
  metadata : List (Str × Str)
deriving DecidableEq

/-- One entry of `RAGService.document_metadata`. -/
structure DocMeta where
  document_id : Str
  filename : Str
  chunk_count : Nat
  created_at : Str
  total_chars : Nat
deriving DecidableEq

/-- The in-memory state of `RAGService`: `self.documents`
(`document_id -> [Document]`) and `self.document_metadata`. -/
structure RAGState where
  documents : List (Str × List Doc)
  document_metadata : List (Str × DocMeta)
deriving DecidableEq

/-- State of `RAGService` together with its persisted image (the pickle/JSON files
rewritten in full by `_save_documents`). -/
structure RAGSys where
  mem : RAGState
  disk : RAGState
deriving DecidableEq

/-- The value returned by `RAGService.add_documents` (its success flag)
together with the resulting system state. -/
structure AddRes where
  success : Bool
  sys : RAGSys
deriving DecidableEq

/-- Embedding of `RAGService._save_documents`: writes the whole in-memory store to disk;
`saveOk` says whether the underlying file write succeeded.  The Python
method catches every exception internally and only prints a message, so a
failure is invisible to its caller and leaves the on-disk image stale. -/
def save_documents (sys : RAGSys) (saveOk : Bool) : RAGSys :=
  if saveOk then { sys with disk := sys.mem } else sys

/-- The metadata enrichment loop at the top of `add_documents`:
`doc.metadata["doc_id"] = f"{document_id}_{i}"`,
`doc.metadata["document_id"] = document_id`,
`doc.metadata["created_at"] = datetime.now().isoformat()`. -/
def enrich (documents : List Doc) (document_id : Str) (nowIso : Str) : List Doc :=
  documents.enum.map (fun p =>
    { page_content := p.2.page_content
      metadata :=
        dictInsert (str "created_at") nowIso
          (dictInsert (str "document_id") document_id
            (dictInsert (str "doc_id") (document_id ++ str "_" ++ natStr p.1)
              p.2.metadata)) })

/-- Embedding of `RAGService.add_documents`: reject an empty chunk list, enrich the
chunk metadata, store the chunks and summary metadata in memory, then call
`_save_documents` (whose failure is swallowed) and report success. -/
def add_documents (sys : RAGSys) (documents : List Doc) (document_id : Str)
    (nowIso : Str) (saveOk : Bool) : AddRes :=
  if documents.isEmpty then ⟨false, sys⟩
  else
    let docs' := enrich documents document_id nowIso
    let filename := (dictGet (str "source") ((docs'.headD ⟨[], []⟩).metadata)).getD []
    let mem' : RAGState :=
      { documents := dictInsert document_id docs' sys.mem.documents
        document_metadata :=
          dictInsert document_id
            ⟨document_id, filename, docs'.length, nowIso,
              (docs'.map (fun d => d.page_content.length)).sum⟩
            sys.mem.document_metadata }
    ⟨true, save_documents { sys with mem := mem' } saveOk⟩

/-- Embedding of `RAGService.get_documents_by_id`: the ordered `(content, metadata)`
pairs of the chunks stored under `document_id`, `[]` when unknown. -/
def get_documents_by_id (st : RAGState) (document_id : Str) :
    List (Str × List (Str × Str)) :=
  match dictGet document_id st.documents with
  | none => []
  | some docs => docs.map (fun doc => (doc.page_content, doc.metadata))

/-- A search result of `search_similar_documents` (a
`{"content", "metadata", "score"}` dict; the score is the float
`matches / len(query_words)`, embedded as a rational). -/
structure SearchHit where
  content : Str
  metadata : List (Str × Str)
  score : ℚ
deriving DecidableEq

/-- A search result of the per-document search in `AIService` (the score
is a raw Python `int` occurrence count). -/
structure RawHit where
  content : Str
  metadata : List (Str × Str)
  score : Nat
deriving DecidableEq

/-- Embedding of `RAGService.search_similar_documents`: empty (all-whitespace) queries
short-circuit to `[]`; otherwise every chunk of every document is scored
by `matches / len(query_words)` where `matches` counts the query tokens
that occur as substrings of the lower-cased content (a 0/1 membership test
per token, repeats counted separately, no length filter); chunks with
`score >= score_threshold` are kept, stably sorted descending, and the
first `k` returned.
`scoreChunk` is the loop body scoring one chunk. -/
def chunkScoreVal (query_words : List Str) (content_lower : Str) : ℚ :=
  if query_words.isEmpty then 0
  else ((query_words.foldl
      (fun acc w => if containsSub w content_lower then acc + 1 else acc) 0 : Nat) : ℚ)
    / (query_words.length : ℚ)

def scoreChunk (score_threshold : ℚ) (query_words : List Str) (doc : Doc) :
    Option SearchHit :=
  if score_threshold ≤ chunkScoreVal query_words (lower doc.page_content) then
    some ⟨doc.page_content, doc.metadata, chunkScoreVal query_words (lower doc.page_content)⟩
  else none

def search_similar_documents (st : RAGState) (query : Str) (k : Nat)
    (score_threshold : ℚ) : List SearchHit :=
  if stripWs query = [] then []
  else
    (sortDescBy SearchHit.score (((st.documents.map Prod.snd).flatten).filterMap
      (scoreChunk score_threshold (splitWs (lower query))))).take k

/-- Embedding of `AIService._search_in_specific_document`: fetch the chunks of one
document, score each by the raw sum over query tokens of length `> 1` of
`content.count(token)` on the lower-cased content, keep strictly positive
scores, stably sort descending, return the first `k`. -/
def chunkScoreRawVal (question_words : List Str) (content_lower : Str) : Nat :=
  question_words.foldl
    (fun acc w => if 1 < w.length then acc + countOcc w content_lower else acc) 0

def scoreChunkRaw (question_words : List Str) (dc : Str × List (Str × Str)) :
    Option RawHit :=
  if 0 < chunkScoreRawVal question_words (lower dc.1) then
    some ⟨dc.1, dc.2, chunkScoreRawVal question_words (lower dc.1)⟩
  else none

def search_in_specific_document (st : RAGState) (question : Str)
    (document_id : Str) (k : Nat) : List RawHit :=
  if get_documents_by_id st document_id = [] then []
  else
    (sortDescBy RawHit.score ((get_documents_by_id st document_id).filterMap
      (scoreChunkRaw (splitWs (lower question))))).take k

/-- Embedding of `AIService._search_in_multiple_documents`: per-document result lists
concatenated in candidate order, globally re-sorted by score descending,
truncated to the first `k`. -/
def search_in_multiple_documents (st : RAGState) (question : Str)
    (document_ids : List Str) (k : Nat) : List RawHit :=
  (sortDescBy RawHit.score
    ((document_ids.map (fun d => search_in_specific_document st question d k)).flatten)).take k

/-- The normalized membership score actually computed by the unrestricted
search: the number of query tokens occurring as substrings of the
lower-cased content, divided by the number of query tokens. -/
def memberScore (query content : Str) : ℚ :=
  let ws := splitWs (lower query)
  (((ws.filter (fun w => containsSub w (lower content))).length : ℚ) / (ws.length : ℚ))

/-- The raw occurrence-count score of the restricted (per-document)
search: the sum over query tokens of length `> 1` of the number of
occurrences of the token in the lower-cased content. -/
def rawScore (question content : Str) : Nat :=
  ((splitWs (lower question)).map
    (fun w => if 1 < w.length then countOcc w (lower content) else 0)).sum

/-- The scoring formula exactly as claim C1 and the spec's Search step 2
word it (for comparison with the code): the sum, over query tokens of
length `> 1`, of `content.count(token)` occurrence counts, divided by the
number of query tokens. -/
def claimedCountScore (query content : Str) : ℚ :=
  let ws := splitWs (lower query)
  ((((ws.map (fun w => if 1 < w.length then countOcc w (lower content) else 0)).sum : ℚ))
    / (ws.length : ℚ))

/-- Embedding of `Config.MAX_CONVERSATION_HISTORY`: at most 20 turns kept per session. -/
def MAX_CONVERSATION_HISTORY : Nat := 20

/-- Embedding of `Config.CONTEXT_WINDOW_SIZE`: the 6 most recent turns are folded into
an LLM prompt. -/
def CONTEXT_WINDOW_SIZE : Nat := 6

/-- Embedding of `Config.SESSION_EXPIRE_TIME`: sessions expire after 24 hours. -/
def SESSION_EXPIRE_TIME : Int := 3600 * 24

/-- One element of a turn's `sources` list
(`{content snippet, filename, score}`). -/
structure Source where
  content : Str
  filename : Str
  score : ℚ
deriving DecidableEq

/-- A conversation turn as built by `add_conversation`
(`timestamp` is the Python `int(time.time())`). -/
structure Turn where
  timestamp : Int
  question : Str
  answer : Str
  model_used : Str
  sources : List Source
deriving DecidableEq

/-- A chat message handed to the LLM (a `{"role", "content"}` dict). -/
structure Msg where
  role : Str
  content : Str
deriving DecidableEq

/-- One entry of the Redis session metadata
(`last_activity`, `conversation_count`, `created_at`). -/
structure SessMeta where
  last_activity : Int
  conversation_count : Nat
  created_at : Int
deriving DecidableEq

/-- The state of `SessionService`: whether the Redis probe succeeded at
startup, the Redis-held conversation lists and session metadata (stored
JSON-serialized under `context:`/`session:` keys; the embedding keeps the
parsed values), and the in-memory `fallback_storage` map. -/
structure SessState where
  redisAvailable : Bool
  redisCtx : List (Str × List Turn)
  redisMeta : List (Str × SessMeta)
  fallback : List (Str × List Turn)
deriving DecidableEq

/-- Embedding of `SessionService.get_conversation_history`: read the session's turn
list from whichever backend is active (absent session gives `[]`), then
keep only the last `limit` turns when a truthy limit is given (Python
`if limit:` makes both `None` and `0` mean "no limit"). -/
def get_conversation_history (st : SessState) (session_id : Str)
    (limit : Option Nat) : List Turn :=
  let conversations :=
    if st.redisAvailable then (dictGet session_id st.redisCtx).getD []
    else (dictGet session_id st.fallback).getD []
  match limit with
  | none => conversations
  | some l => if l = 0 then conversations else lastN l conversations

/-- Embedding of `SessionService.add_conversation`: build the turn, then read-modify-
write the active backend's history, truncating to the most recent
`MAX_CONVERSATION_HISTORY` turns.  On the Redis path `ctxOk` / `metaOk`
say whether the two `setex` writes raised; a raise is caught by the
enclosing `except`, which logs and returns `False` (the turn is dropped
and the fallback map is never touched).  The fallback path cannot fail. -/
def add_conversation (st : SessState) (session_id : Str) (question answer : Str)
    (model_used : Str) (sources : Option (List Source)) (now : Int)
    (ctxOk metaOk : Bool) : Bool × SessState :=
  let conversation_item : Turn := ⟨now, question, answer, model_used, sources.getD []⟩
  if st.redisAvailable then
    let conversations := get_conversation_history st session_id none ++ [conversation_item]
    let conversations :=
      if MAX_CONVERSATION_HISTORY < conversations.length then
        lastN MAX_CONVERSATION_HISTORY conversations
      else conversations
    if ctxOk then
      let st1 := { st with redisCtx := dictInsert session_id conversations st.redisCtx }
      let created_at :=
        match dictGet session_id st.redisMeta with
        | some m => m.created_at
        | none => now
      if metaOk then
        (true, { st1 with
          redisMeta := dictInsert session_id ⟨now, conversations.length, created_at⟩
            st1.redisMeta })
      else (false, st1)
    else (false, st)
  else
    let cur := (dictGet session_id st.fallback).getD []
    let upd := cur ++ [conversation_item]
    let upd :=
      if MAX_CONVERSATION_HISTORY < upd.length then lastN MAX_CONVERSATION_HISTORY upd
      else upd
    (true, { st with fallback := dictInsert session_id upd st.fallback })

/-- Embedding of `SessionService.get_context_for_llm`: the most recent
`CONTEXT_WINDOW_SIZE` turns flattened into user/assistant message pairs,
oldest first. -/
def get_context_for_llm (st : SessState) (session_id : Str) : List Msg :=
  ((get_conversation_history st session_id (some CONTEXT_WINDOW_SIZE)).map
    (fun conv => [⟨str "user", conv.question⟩, ⟨str "assistant", conv.answer⟩])).flatten

/-- The expiry test of `cleanup_expired_sessions`: a fallback entry is
evicted when it has a last turn whose timestamp is strictly more than
`SESSION_EXPIRE_TIME` seconds before `now` (entries with no turns are
skipped by the `if conversations:` guard). -/
def expiredEntry (now : Int) (p : Str × List Turn) : Bool :=
  match p.2.getLast? with
  | some t => decide (SESSION_EXPIRE_TIME < now - t.timestamp)
  | none => false

/-- Embedding of `SessionService.cleanup_expired_sessions`: return `0` untouched when
Redis is active (Redis expires keys natively); otherwise collect the
expired session ids, delete each from the fallback map, and return the
evicted count. -/
def cleanup_expired_sessions (st : SessState) (now : Int) : Nat × SessState :=
  if st.redisAvailable then (0, st)
  else
    let expired_sessions := (st.fallback.filter (expiredEntry now)).map Prod.fst
    (expired_sessions.length,
      { st with fallback := expired_sessions.foldl (fun fb sid => dictDel sid fb) st.fallback })

/-- The arguments of one `add_conversation` call (its fresh-turn payload
plus the `time.time()` instant of the call). -/
structure TurnIn where
  question : Str
  answer : Str
  model_used : Str
  sources : Option (List Source)
  now : Int
deriving DecidableEq

/-- The turn that `add_conversation` builds from one call's arguments. -/
def mkTurn (i : TurnIn) : Turn :=
  ⟨i.now, i.question, i.answer, i.model_used, i.sources.getD []⟩

/-- One successful `AppendTurn` step on session `sid` (both backend
writes succeed). -/
def appendStep (sid : Str) (st : SessState) (i : TurnIn) : SessState :=
  (add_conversation st sid i.question i.answer i.model_used i.sources i.now true true).2

/-- A fresh `SessionService` state whose startup Redis probe returned `b`:
no sessions exist on either backend. -/
def initSessState (b : Bool) : SessState := ⟨b, [], [], []⟩

/-- The spec scenario store: one ingested document whose 3 chunks each
contain the word "gravity" twice. -/
def gravStore : RAGState :=
  ⟨[(str "doc1",
     [⟨str "gravity attracts gravity", [(str "source", str "phys.txt")]⟩,
      ⟨str "gravity acts like gravity", [(str "source", str "phys.txt")]⟩,
      ⟨str "on gravity and gravity", [(str "source", str "phys.txt")]⟩])],
   []⟩

/-- The first scenario chunk as the unrestricted search returns it. -/
def gravHit1 : SearchHit :=
  ⟨str "gravity attracts gravity", [(str "source", str "phys.txt")], 1⟩

/-- The second scenario chunk as the unrestricted search returns it. -/
def gravHit2 : SearchHit :=
  ⟨str "gravity acts like gravity", [(str "source", str "phys.txt")], 1⟩

/-- The third scenario chunk as the unrestricted search returns it. -/
def gravHit3 : SearchHit :=
  ⟨str "on gravity and gravity", [(str "source", str "phys.txt")], 1⟩

/-- The restricted-search scenario store: document "docA" has no chunk
matching the query "apple", document "docB" has two matching chunks with
occurrence counts 2 and 1. -/
def store2 : RAGState :=
  ⟨[(str "docA", [⟨str "nothing here", []⟩]),
    (str "docB", [⟨str "apple pie", []⟩, ⟨str "apple apple tart", []⟩])],
   []⟩

/-- An empty `RAGService` system (fresh in-memory store, fresh disk). -/
def sys0 : RAGSys := ⟨⟨[], []⟩, ⟨[], []⟩⟩

/-- A one-chunk ingestion input whose metadata dict is empty. -/
def docs0 : List Doc := [⟨str "hello world", []⟩]

/-- A fallback-backend session state with one expired and one live session
(at observation time `100000`, session "s1" last wrote at time `0`, more
than `SESSION_EXPIRE_TIME` ago; "s2" last wrote at `90000`). -/
def sessFb : SessState :=
  ⟨false, [], [],
   [(str "s1", [⟨0, str "q1", str "a1", str "m", []⟩]),
    (str "s2", [⟨90000, str "q2", str "a2", str "m", []⟩])]⟩

theorem lastN_length {α : Type} (k : Nat) (l : List α) :
    (lastN k l).length = min k l.length := by
  simp only [lastN, List.length_drop]
  omega

theorem lastN_of_le {α : Type} {k : Nat} {l : List α} (h : l.length ≤ k) :
    lastN k l = l := by
  have hz : l.length - k = 0 := by omega
  simp [lastN, hz]

theorem lastN_append_lastN {α : Type} (k : Nat) (x y : List α) :
    lastN k (lastN k x ++ y) = lastN k (x ++ y) := by
  unfold lastN
  rw [← List.drop_append_of_le_length (Nat.sub_le _ _)]
  simp only [List.drop_drop, List.length_drop, List.length_append]
  congr 1
  omega

theorem lastN_idem {α : Type} (k : Nat) (l : List α) :
    lastN k (lastN k l) = lastN k l :=
  lastN_of_le (by rw [lastN_length]; omega)

theorem dictGet_dictInsert_self {α : Type} (k : Str) (v : α) (l : List (Str × α)) :
    dictGet k (dictInsert k v l) = some v := by
  induction l with
  | nil => simp [dictInsert, dictGet]
  | cons p rest ih =>
    by_cases h : p.1 = k
    · simp [dictInsert, dictGet, h]
    · simp [dictInsert, dictGet, h, ih]

theorem foldl_count_eq {α : Type} (p : α → Bool) :
    ∀ (l : List α) (n : Nat),
      l.foldl (fun acc w => if p w then acc + 1 else acc) n = n + (l.filter p).length
  | [], n => by simp
  | a :: l, n => by
    by_cases h : p a
    · simp [List.filter_cons, h, foldl_count_eq p l]
      omega
    · simp [List.filter_cons, h, foldl_count_eq p l]

theorem foldl_addif_eq_sum {α : Type} (p : α → Prop) [DecidablePred p] (g : α → Nat) :
    ∀ (l : List α) (n : Nat),
      l.foldl (fun acc w => if p w then acc + g w else acc) n
        = n + (l.map (fun w => if p w then g w else 0)).sum
  | [], n => by simp
  | a :: l, n => by
    by_cases h : p a
    · simp [h, foldl_addif_eq_sum p g l]
      omega
    · simp [h, foldl_addif_eq_sum p g l]

theorem exists_pos_of_sum_pos {α : Type} (f : α → Nat) :
    ∀ (l : List α), 0 < (l.map f).sum → ∃ x ∈ l, 0 < f x
  | a :: l, h => by
    by_cases ha : 0 < f a
    · exact ⟨a, List.mem_cons_self a l, ha⟩
    · have : 0 < (l.map f).sum := by
        simp only [List.map_cons, List.sum_cons] at h
        omega
      obtain ⟨x, hx, hfx⟩ := exists_pos_of_sum_pos f l this
      exact ⟨x, List.mem_cons_of_mem a hx, hfx⟩

theorem containsSub_of_countOccFuel_pos (needle : Str) :
    ∀ (fuel : Nat) (hay : Str), hay.length ≤ fuel →
      0 < countOccFuel needle fuel hay → containsSub needle hay = true
  | 0, hay, hlen, hpos => by simp [countOccFuel] at hpos
  | fuel + 1, [], hlen, hpos => by simp [countOccFuel] at hpos
  | fuel + 1, c :: rest, hlen, hpos => by
    by_cases h : charsPre needle (c :: rest) = true
    · simp [containsSub, h]
    · have h2 : countOccFuel needle fuel rest > 0 := by
        rw [countOccFuel] at hpos
        simp only [Bool.not_eq_true] at h
        simpa [h] using hpos
      have h3 : rest.length ≤ fuel := by
        simp only [List.length_cons] at hlen
        omega
      have := containsSub_of_countOccFuel_pos needle fuel rest h3 h2
      simp [containsSub, this]

theorem containsSub_nil_needle : ∀ (hay : Str), containsSub [] hay = true
  | [] => by simp [containsSub, charsPre]
  | _ :: _ => by simp [containsSub, charsPre]

theorem containsSub_of_countOcc_pos {needle hay : Str} :
    0 < countOcc needle hay → containsSub needle hay = true := by
  unfold countOcc
  by_cases h : needle = []
  · intro _
    subst h
    exact containsSub_nil_needle hay
  · simp only [h, if_false]
    exact containsSub_of_countOccFuel_pos needle hay.length hay le_rfl

theorem mem_insertDesc {α β : Type} [LinearOrder β] (key : α → β) (x a : α) :
    ∀ (l : List α), (a ∈ insertDesc key x l ↔ a = x ∨ a ∈ l)
  | [] => by simp [insertDesc]
  | y :: ys => by
    unfold insertDesc
    by_cases h : key x < key y
    · simp only [h, if_true, List.mem_cons, mem_insertDesc key x a ys]
      tauto
    · simp only [h, if_false, List.mem_cons]

theorem mem_sortDescBy {α β : Type} [LinearOrder β] (key : α → β) (a : α) :
    ∀ (l : List α), a ∈ sortDescBy key l ↔ a ∈ l
  | [] => Iff.rfl
  | y :: ys => by
    show a ∈ insertDesc key y (sortDescBy key ys) ↔ _
    rw [mem_insertDesc, mem_sortDescBy key a ys, List.mem_cons]

theorem pairwise_insertDesc {α β : Type} [LinearOrder β] (key : α → β) (x : α) :
    ∀ {l : List α}, l.Pairwise (fun a b => key b ≤ key a) →
      (insertDesc key x l).Pairwise (fun a b => key b ≤ key a) := by
  intro l
  induction l with
  | nil => intro _; simp [insertDesc]
  | cons y ys ih =>
    intro h
    rcases List.pairwise_cons.mp h with ⟨hy, hys⟩
    unfold insertDesc
    by_cases hlt : key x < key y
    · simp only [hlt, if_true]
      refine List.pairwise_cons.mpr ⟨?_, ih hys⟩
      intro z hz
      rcases (mem_insertDesc key x z ys).mp hz with rfl | hzys
      · exact le_of_lt hlt
      · exact hy z hzys
    · simp only [hlt, if_false]
      refine List.pairwise_cons.mpr ⟨?_, h⟩
      intro z hz
      rcases List.mem_cons.mp hz with rfl | hzys
      · exact not_lt.mp hlt
      · exact le_trans (hy z hzys) (not_lt.mp hlt)

theorem pairwise_sortDescBy {α β : Type} [LinearOrder β] (key : α → β) :
    ∀ (l : List α), (sortDescBy key l).Pairwise (fun a b => key b ≤ key a)
  | [] => List.Pairwise.nil
  | y :: ys => pairwise_insertDesc key y (pairwise_sortDescBy key ys)

theorem length_flatten_pairMap {α β : Type} (f g : α → β) :
    ∀ (l : List α), ((l.map (fun c => [f c, g c])).flatten).length = 2 * l.length
  | [] => rfl
  | a :: l => by
    simp only [List.map_cons, List.flatten_cons, List.length_append,
      length_flatten_pairMap f g l, List.length_cons, List.length_nil]
    omega

theorem foldl_dictDel_eq_filter {α : Type} :
    ∀ (K : List Str) (l : List (Str × α)),
      K.foldl (fun fb sid => dictDel sid fb) l
        = l.filter (fun e => decide (e.1 ∉ K))
  | [], l => by simp
  | k :: K, l => by
    show K.foldl (fun fb sid => dictDel sid fb) (dictDel k l) = _
    rw [foldl_dictDel_eq_filter K (dictDel k l)]
    unfold dictDel
    rw [List.filter_filter]
    refine List.filter_congr ?_
    intro e _
    by_cases h1 : e.1 = k <;> by_cases h2 : e.1 ∈ K <;> simp [h1, h2]

theorem trunc_eq_lastN {α : Type} (l : List α) :
    (if MAX_CONVERSATION_HISTORY < l.length then lastN MAX_CONVERSATION_HISTORY l else l)
      = lastN MAX_CONVERSATION_HISTORY l := by
  by_cases h : MAX_CONVERSATION_HISTORY < l.length
  · simp [h]
  · simp only [h, if_false]
    exact (lastN_of_le (by omega)).symm

theorem hist_appendStep (sid : Str) (st : SessState) (i : TurnIn) :
    get_conversation_history (appendStep sid st i) sid none
      = lastN MAX_CONVERSATION_HISTORY
          (get_conversation_history st sid none ++ [mkTurn i]) := by
  unfold appendStep add_conversation
  cases hb : st.redisAvailable with
  | true =>
    simp [hb, get_conversation_history, dictGet_dictInsert_self,
      trunc_eq_lastN, mkTurn]
    intro hle
    exact (lastN_of_le (by simp; omega)).symm
  | false =>
    simp [hb, get_conversation_history, dictGet_dictInsert_self,
      trunc_eq_lastN, mkTurn]
    intro hle
    exact (lastN_of_le (by simp; omega)).symm

theorem hist_foldl (sid : Str) :
    ∀ (ins : List TurnIn) (st : SessState),
      get_conversation_history st sid none
          = lastN MAX_CONVERSATION_HISTORY (get_conversation_history st sid none) →
      get_conversation_history (ins.foldl (appendStep sid) st) sid none
        = lastN MAX_CONVERSATION_HISTORY
            (get_conversation_history st sid none ++ ins.map mkTurn)
  | [], st, h => by simpa using h
  | i :: ins, st, h => by
    have hstep := hist_appendStep sid st i
    have hpre : get_conversation_history (appendStep sid st i) sid none
        = lastN MAX_CONVERSATION_HISTORY
            (get_conversation_history (appendStep sid st i) sid none) := by
      rw [hstep, lastN_idem]
    have ih := hist_foldl sid ins (appendStep sid st i) hpre
    rw [List.foldl_cons, ih, hstep, lastN_append_lastN, List.map_cons]
    rw [List.append_assoc, List.singleton_append]


theorem chunkScoreVal_eq (ws : List Str) (contentLower : Str) :
    chunkScoreVal ws contentLower
      = ((ws.filter (fun w => containsSub w contentLower)).length : ℚ) / (ws.length : ℚ) := by
  unfold chunkScoreVal
  by_cases h : ws.isEmpty
  · have hnil : ws = [] := List.isEmpty_iff.mp h
    subst hnil
    simp
  · rw [if_neg (by simpa using h), foldl_count_eq]
    norm_num

theorem chunkScoreRawVal_eq (ws : List Str) (contentLower : Str) :
    chunkScoreRawVal ws contentLower
      = (ws.map (fun w => if 1 < w.length then countOcc w contentLower else 0)).sum := by
  unfold chunkScoreRawVal
  rw [foldl_addif_eq_sum]
  exact Nat.zero_add _

theorem scoreChunk_eq_some {θ : ℚ} {ws : List Str} {doc : Doc} {hit : SearchHit}
    (h : scoreChunk θ ws doc = some hit) :
    θ ≤ hit.score ∧ hit.content = doc.page_content
      ∧ hit.score = chunkScoreVal ws (lower doc.page_content) := by
  unfold scoreChunk at h
  by_cases hθ : θ ≤ chunkScoreVal ws (lower doc.page_content)
  · rw [if_pos hθ] at h
    have h2 := Option.some.inj h
    subst h2
    exact ⟨hθ, rfl, rfl⟩
  · rw [if_neg hθ] at h
    exact absurd h (by simp)

theorem scoreChunkRaw_eq_some {ws : List Str} {dc : Str × List (Str × Str)} {hit : RawHit}
    (h : scoreChunkRaw ws dc = some hit) :
    0 < hit.score ∧ hit.content = dc.1
      ∧ hit.score = chunkScoreRawVal ws (lower dc.1) := by
  unfold scoreChunkRaw at h
  by_cases hpos : 0 < chunkScoreRawVal ws (lower dc.1)
  · rw [if_pos hpos] at h
    have h2 := Option.some.inj h
    subst h2
    exact ⟨hpos, rfl, rfl⟩
  · rw [if_neg hpos] at h
    exact absurd h (by simp)

theorem search_similar_hit_spec (st : RAGState) (query : Str) (k : Nat) (θ : ℚ)
    (hit : SearchHit) (h : hit ∈ search_similar_documents st query k θ) :
    θ ≤ hit.score ∧ hit.score = memberScore query hit.content := by
  unfold search_similar_documents at h
  by_cases hq : stripWs query = []
  · rw [if_pos hq] at h
    exact absurd h (by simp)
  · rw [if_neg hq] at h
    have h1 := List.take_subset _ _ h
    have h2 := (mem_sortDescBy SearchHit.score hit _).mp h1
    obtain ⟨doc, _, hsome⟩ := List.mem_filterMap.mp h2
    obtain ⟨hθ, hc, hs⟩ := scoreChunk_eq_some hsome
    refine ⟨hθ, ?_⟩
    rw [hs, hc, memberScore, chunkScoreVal_eq]

theorem search_specific_hit_spec (st : RAGState) (question document_id : Str) (k : Nat)
    (hit : RawHit) (h : hit ∈ search_in_specific_document st question document_id k) :
    0 < hit.score ∧ hit.score = rawScore question hit.content := by
  unfold search_in_specific_document at h
  by_cases hc0 : get_documents_by_id st document_id = []
  · rw [if_pos hc0] at h
    exact absurd h (by simp)
  · rw [if_neg hc0] at h
    have h1 := List.take_subset _ _ h
    have h2 := (mem_sortDescBy RawHit.score hit _).mp h1
    obtain ⟨dc, _, hsome⟩ := List.mem_filterMap.mp h2
    obtain ⟨hpos, hcc, hs⟩ := scoreChunkRaw_eq_some hsome
    refine ⟨hpos, ?_⟩
    rw [hs, hcc, rawScore, chunkScoreRawVal_eq]

theorem key_mem_filter_iff {β : Type} {l : List (Str × β)}
    (hnd : (l.map Prod.fst).Nodup) (q : Str × β → Bool) {e : Str × β} (he : e ∈ l) :
    (e.1 ∈ (l.filter q).map Prod.fst) ↔ q e = true := by
  constructor
  · intro hmem
    obtain ⟨e2, he2mem, he2key⟩ := List.mem_map.mp hmem
    have he2l := (List.mem_filter.mp he2mem).1
    have hq := (List.mem_filter.mp he2mem).2
    have heq : e2 = e := List.inj_on_of_nodup_map hnd he2l he he2key
    rwa [heq] at hq
  · intro hq
    exact List.mem_map.mpr ⟨e, List.mem_filter.mpr ⟨he, hq⟩, rfl⟩

theorem add_documents_spec (sys : RAGSys) (docs : List Doc) (d n : Str) (sv : Bool)
    (h : docs ≠ []) :
    (add_documents sys docs d n sv).success = true
    ∧ dictGet d (add_documents sys docs d n sv).sys.mem.documents = some (enrich docs d n)
    ∧ (add_documents sys docs d n sv).sys.mem = (add_documents sys docs d n true).sys.mem
    ∧ (add_documents sys docs d n true).sys.disk = (add_documents sys docs d n true).sys.mem
    ∧ (add_documents sys docs d n false).sys.disk = sys.disk := by
  have hne : ¬(docs.isEmpty = true) := by
    simpa using h
  unfold add_documents save_documents
  cases sv <;> simp [hne, dictGet_dictInsert_self]

theorem enrich_map_content (docs : List Doc) (d n : Str) :
    (enrich docs d n).map (fun doc => doc.page_content)
      = docs.map (fun doc => doc.page_content) := by
  unfold enrich
  rw [List.map_map]
  conv_rhs => rw [← List.enum_map_snd docs, List.map_map]
  exact List.map_congr_left (fun a _ => rfl)

theorem enrich_map_metadata (docs : List Doc) (d n : Str) :
    (enrich docs d n).map (fun doc => doc.metadata)
      = docs.enum.map (fun p =>
          dictInsert (str "created_at") n
            (dictInsert (str "document_id") d
              (dictInsert (str "doc_id") (d ++ str "_" ++ natStr p.1) p.2.metadata))) := by
  unfold enrich
  rw [List.map_map]
  exact List.map_congr_left (fun a _ => rfl)

theorem get_after_add (sys : RAGSys) (docs : List Doc) (d n : Str) (sv : Bool)
    (h : docs ≠ []) :
    get_documents_by_id (add_documents sys docs d n sv).sys.mem d
      = (enrich docs d n).map (fun doc => (doc.page_content, doc.metadata)) := by
  have h2 := (add_documents_spec sys docs d n sv h).2.1
  unfold get_documents_by_id
  rw [h2]

/-- Claim C1, as stated, is false on the code: the unrestricted search
does not use `content.count(token)` occurrence counting.  At the concrete
scenario input (a chunk containing "gravity" twice, query "gravity"), the
claimed count-based score is `2`, but `search_similar_documents` returns
every such chunk with score `1` (one query token, present, divided by one
token), so the score does not reflect the occurrence count. -/
theorem C1_counterexample :
    claimedCountScore (str "gravity") (str "gravity attracts gravity") = 2
    ∧ search_similar_documents gravStore (str "gravity") 5 (1/10)
        = [gravHit1, gravHit2, gravHit3]
    ∧ gravHit1.score = 1
    ∧ (1 : ℚ) ≠ 2 :=
  ⟨by decide, by decide, by decide, by decide⟩

/-- Claim C1 (amended): for every query and chunk, the unrestricted search
scores a chunk as `matches / |queryTokens|` where `matches` counts the
query tokens (repeats counted separately, no length filter) that occur as
substrings of the lower-cased content — a 0/1 membership test per token,
not an occurrence count; only chunks with `score ≥ scoreThreshold` are
returned.  In the spec scenario the three chunks containing "gravity"
twice all score `1` (not 2): threshold `0.1` returns all three,
threshold `10` returns none. -/
theorem C1_amended_membership_scoring :
    (∀ (st : RAGState) (query : Str) (k : Nat) (θ : ℚ) (hit : SearchHit),
        hit ∈ search_similar_documents st query k θ →
          θ ≤ hit.score ∧ hit.score = memberScore query hit.content)
    ∧ search_similar_documents gravStore (str "gravity") 5 (1/10)
        = [gravHit1, gravHit2, gravHit3]
    ∧ search_similar_documents gravStore (str "gravity") 5 10 = [] :=
  ⟨search_similar_hit_spec, by decide, by decide⟩

/-- Witness for C1 (amended) at the scenario store: the first returned hit
satisfies the threshold bound and the membership-score formula. -/
theorem C1_amended_membership_scoring_witness :
    (1/10 : ℚ) ≤ gravHit1.score
    ∧ gravHit1.score = memberScore (str "gravity") gravHit1.content :=
  C1_amended_membership_scoring.1 gravStore (str "gravity") 5 (1/10) gravHit1 (by decide)

/-- Claim C2: restricted search scores by the raw sum of
`content.count(token)` over query tokens of length `> 1` (no division by
the token count); multi-document search concatenates the per-document
result lists, re-sorts globally by score descending, and truncates to `k`.
In the scenario, searching ids `[docA, docB]` where docA has no match and
docB has chunks with counts 2 and 1 returns exactly those two chunks in
descending raw-count order. -/
theorem C2_raw_restricted_search :
    (∀ (st : RAGState) (question : Str) (ids : List Str) (k : Nat),
        search_in_multiple_documents st question ids k
          = (sortDescBy RawHit.score
              ((ids.map (fun d => search_in_specific_document st question d k)).flatten)).take k)
    ∧ (∀ (st : RAGState) (question : Str) (ids : List Str) (k : Nat),
        (search_in_multiple_documents st question ids k).Pairwise
          (fun a b => b.score ≤ a.score))
    ∧ (∀ (st : RAGState) (question document_id : Str) (k : Nat) (hit : RawHit),
        hit ∈ search_in_specific_document st question document_id k →
          hit.score = rawScore question hit.content)
    ∧ search_in_multiple_documents store2 (str "apple") [str "docA", str "docB"] 5
        = [⟨str "apple apple tart", [], 2⟩, ⟨str "apple pie", [], 1⟩] := by
  refine ⟨fun st q ids k => rfl, ?_, ?_, by decide⟩
  · intro st q ids k
    exact List.Pairwise.sublist (List.take_sublist k _) (pairwise_sortDescBy RawHit.score _)
  · intro st q d k hit h
    exact (search_specific_hit_spec st q d k hit h).2

/-- Witness for C2 at the scenario store: the hit for "apple pie" carries
exactly its raw occurrence-count score. -/
theorem C2_raw_restricted_search_witness :
    (RawHit.mk (str "apple pie") [] 1).score
      = rawScore (str "apple") (RawHit.mk (str "apple pie") [] 1).content :=
  C2_raw_restricted_search.2.2.1 store2 (str "apple") (str "docB") 5
    ⟨str "apple pie", [], 1⟩ (by decide)

/-- Claim C3, as stated, is false on the code: `_save_documents` swallows
every write failure (it only prints), so when persistence fails
`add_documents` still reports success and keeps the in-memory mutation —
there is no rollback, and the in-memory store diverges from its persisted
image (memory holds the new document, disk does not). -/
theorem C3_counterexample :
    (add_documents sys0 docs0 (str "d1") (str "t0") false).success = true
    ∧ (add_documents sys0 docs0 (str "d1") (str "t0") false).sys.mem ≠ sys0.mem
    ∧ (add_documents sys0 docs0 (str "d1") (str "t0") false).sys.mem
        ≠ (add_documents sys0 docs0 (str "d1") (str "t0") false).sys.disk :=
  ⟨by decide, by decide, by decide⟩

/-- Claim C3 (amended): `add_documents` attempts persistence before
returning, but a persistence failure is caught and logged inside the save
helper: the in-memory mutation is kept (identical whether or not the save
succeeded), the operation still reports success, and only a successful
save updates the persisted image (on failure the disk keeps its old
contents, so memory and disk can diverge).  A failure value is produced
only for an empty chunk list. -/
theorem C3_amended_persistence (sys : RAGSys) (docs : List Doc) (d n : Str) (sv : Bool)
    (h : docs ≠ []) :
    (add_documents sys docs d n sv).success = true
    ∧ dictGet d (add_documents sys docs d n sv).sys.mem.documents = some (enrich docs d n)
    ∧ (add_documents sys docs d n sv).sys.mem = (add_documents sys docs d n true).sys.mem
    ∧ (add_documents sys docs d n true).sys.disk = (add_documents sys docs d n true).sys.mem
    ∧ (add_documents sys docs d n false).sys.disk = sys.disk :=
  add_documents_spec sys docs d n sv h

/-- Witness for C3 (amended): on the concrete one-chunk ingestion with the
save failing, the operation still reports success. -/
theorem C3_amended_persistence_witness :
    (add_documents sys0 docs0 (str "d1") (str "t0") false).success = true :=
  (C3_amended_persistence sys0 docs0 (str "d1") (str "t0") false (by decide)).1

/-- Claim C4: starting from a fresh state on either backend (all writes
succeeding), any sequence of appends to one session leaves exactly the
most recent `MAX_CONVERSATION_HISTORY` turns, in their original
chronological order (the `lastN` of the appended sequence), and the
history length never exceeds the bound. -/
theorem C4_bounded_history (b : Bool) (sid : Str) (ins : List TurnIn) :
    get_conversation_history (ins.foldl (appendStep sid) (initSessState b)) sid none
      = lastN MAX_CONVERSATION_HISTORY (ins.map mkTurn)
    ∧ (get_conversation_history (ins.foldl (appendStep sid) (initSessState b)) sid none).length
        ≤ MAX_CONVERSATION_HISTORY := by
  have h0 : get_conversation_history (initSessState b) sid none = [] := by
    cases b <;> simp [get_conversation_history, initSessState, dictGet]
  have h1 := hist_foldl sid ins (initSessState b) (by rw [h0]; rfl)
  rw [h0] at h1
  simp only [List.nil_append] at h1
  refine ⟨h1, ?_⟩
  rw [h1, lastN_length]
  omega

/-- Claim C5: `get_context_for_llm` returns exactly
`2 * min CONTEXT_WINDOW_SIZE historyLength` messages: the most recent
`CONTEXT_WINDOW_SIZE` turns flattened oldest-first into user/assistant
pairs carrying each turn's question and answer. -/
theorem C5_context_messages (st : SessState) (session_id : Str) :
    (get_context_for_llm st session_id).length
        = 2 * min CONTEXT_WINDOW_SIZE (get_conversation_history st session_id none).length
    ∧ get_context_for_llm st session_id
        = ((lastN CONTEXT_WINDOW_SIZE (get_conversation_history st session_id none)).map
            (fun conv => [⟨str "user", conv.question⟩, ⟨str "assistant", conv.answer⟩])).flatten := by
  have hg : get_conversation_history st session_id (some CONTEXT_WINDOW_SIZE)
      = lastN CONTEXT_WINDOW_SIZE (get_conversation_history st session_id none) := by
    simp [get_conversation_history, CONTEXT_WINDOW_SIZE]
  constructor
  · rw [get_context_for_llm, hg, length_flatten_pairMap, lastN_length]
  · rw [get_context_for_llm, hg]

/-- Claim C6: `add_conversation` never propagates a failure: it is a total
function returning a boolean flag.  On the fallback backend it always
reports `true`; when the durable (Redis) write raises, the exception is
caught and absorbed into a `false` return — the state is completely
unchanged (the turn is lost and the fallback map is never touched, there
is no secondary fallback); when both durable writes succeed it reports
`true`. -/
theorem C6_append_never_raises :
    (∀ (st : SessState) (sid q a m : Str) (srcs : Option (List Source)) (now : Int)
        (ctxOk metaOk : Bool), st.redisAvailable = false →
        (add_conversation st sid q a m srcs now ctxOk metaOk).1 = true)
    ∧ (∀ (st : SessState) (sid q a m : Str) (srcs : Option (List Source)) (now : Int)
        (metaOk : Bool), st.redisAvailable = true →
        add_conversation st sid q a m srcs now false metaOk = (false, st))
    ∧ (∀ (st : SessState) (sid q a m : Str) (srcs : Option (List Source)) (now : Int),
        st.redisAvailable = true →
        (add_conversation st sid q a m srcs now true true).1 = true) := by
  refine ⟨?_, ?_, ?_⟩
  · intro st sid q a m srcs now ctxOk metaOk h
    simp [add_conversation, h]
  · intro st sid q a m srcs now metaOk h
    simp [add_conversation, h]
  · intro st sid q a m srcs now h
    simp [add_conversation, h]

/-- Witness for C6: on a concrete Redis-backed state whose context write
raises, the call returns `false` with the state unchanged. -/
theorem C6_append_never_raises_witness :
    add_conversation (initSessState true) (str "s") (str "q") (str "a") (str "m")
        none 0 false true
      = (false, initSessState true) :=
  C6_append_never_raises.2.1 (initSessState true) (str "s") (str "q") (str "a") (str "m")
    none 0 true rfl

/-- Claim C7, as stated, is false on the code: searching with an empty
query is not a distinguishable error outcome.  `search_similar_documents`
returns the plain empty list — the very same value an ordinary non-empty
query with no qualifying chunks returns — and its result type has no
failure variant at all. -/
theorem C7_counterexample :
    search_similar_documents gravStore (str "") 5 (1/10) = []
    ∧ search_similar_documents gravStore (str "qqq") 5 (1/10) = [] :=
  ⟨by decide, by decide⟩

/-- Claim C7 (amended): for every store, an empty (or all-whitespace)
query makes `search_similar_documents` return the empty list, a normal
result value indistinguishable from a no-match search; no error is
signaled. -/
theorem C7_amended_empty_query (st : RAGState) (k : Nat) (θ : ℚ) (query : Str)
    (h : stripWs query = []) :
    search_similar_documents st query k θ = [] := by
  unfold search_similar_documents
  rw [if_pos h]

/-- Witness for C7 (amended) at the scenario store with the empty query. -/
theorem C7_amended_empty_query_witness :
    search_similar_documents gravStore (str "") 5 (1/10) = [] :=
  C7_amended_empty_query gravStore 5 (1/10) (str "") (by decide)

/-- Claim C8: `cleanup_expired_sessions` is a no-op returning `0` when the
durable backend is active; on the fallback backend it removes exactly the
sessions whose last turn's timestamp lies strictly more than
`SESSION_EXPIRE_TIME` seconds before the current time (sessions with no
turns are kept), leaves every other session's turns unchanged, and returns
the number of sessions removed. -/
theorem C8_sweep (st : SessState) (now : Int) :
    (st.redisAvailable = true → cleanup_expired_sessions st now = (0, st))
    ∧ (st.redisAvailable = false → (st.fallback.map Prod.fst).Nodup →
        (cleanup_expired_sessions st now).1
            = (st.fallback.filter (expiredEntry now)).length
        ∧ (cleanup_expired_sessions st now).2.fallback
            = st.fallback.filter (fun p => !(expiredEntry now p))
        ∧ (cleanup_expired_sessions st now).2.redisAvailable = st.redisAvailable
        ∧ ∀ p ∈ st.fallback,
            (p ∈ (cleanup_expired_sessions st now).2.fallback
              ↔ expiredEntry now p = false)) := by
  constructor
  · intro h
    simp [cleanup_expired_sessions, h]
  · intro h hnd
    have hfb : (cleanup_expired_sessions st now).2.fallback
        = st.fallback.filter (fun p => !(expiredEntry now p)) := by
      unfold cleanup_expired_sessions
      rw [if_neg (by simp [h])]
      simp only
      rw [foldl_dictDel_eq_filter]
      refine List.filter_congr ?_
      intro e he
      have hiff := key_mem_filter_iff hnd (expiredEntry now) he
      by_cases hq : expiredEntry now e = true
      · simp [hq, hiff.mpr hq]
      · have hnot : e.1 ∉ (st.fallback.filter (expiredEntry now)).map Prod.fst :=
          fun hc => hq (hiff.mp hc)
        simp only [Bool.not_eq_true] at hq
        simp [hq, hnot]
    refine ⟨?_, hfb, ?_, ?_⟩
    · unfold cleanup_expired_sessions
      rw [if_neg (by simp [h])]
      simp [List.length_map]
    · unfold cleanup_expired_sessions
      rw [if_neg (by simp [h])]
    · intro p hp
      rw [hfb, List.mem_filter]
      constructor
      · intro hx
        simpa using hx.2
      · intro hx
        exact ⟨hp, by simp [hx]⟩

/-- Witness for C8 on a concrete fallback state with one expired and one
live session: the sweep count and surviving map match the expiry filter. -/
theorem C8_sweep_witness :
    (cleanup_expired_sessions sessFb 100000).1
        = (sessFb.fallback.filter (expiredEntry 100000)).length
    ∧ (cleanup_expired_sessions sessFb 100000).2.fallback
        = sessFb.fallback.filter (fun p => !(expiredEntry 100000 p)) :=
  ⟨((C8_sweep sessFb 100000).2 rfl (by decide)).1,
   ((C8_sweep sessFb 100000).2 rfl (by decide)).2.1⟩

/-- Claim C9, as stated, is false on the code: ingestion mutates each
chunk's metadata (stamping `doc_id`, `document_id`, `created_at`), so an
immediate `get_documents_by_id` returns chunks whose metadata differs from
the metadata the chunks were submitted with (here: empty metadata in,
three stamped keys out). -/
theorem C9_counterexample :
    get_documents_by_id (add_documents sys0 docs0 (str "d1") (str "t0") true).sys.mem
        (str "d1")
      ≠ docs0.map (fun doc => (doc.page_content, doc.metadata)) := by
  decide

/-- Claim C9 (amended): for every non-empty chunk list, ingest followed by
an immediate fetch returns exactly the ingested chunks: contents equal to
the input contents in the same order, and each chunk's metadata equal to
its input metadata augmented (in dict-update order) with
`doc_id = "{documentId}_{i}"`, `document_id`, and the ingestion-stamped
`created_at`. -/
theorem C9_amended_roundtrip (sys : RAGSys) (docs : List Doc) (d n : Str) (sv : Bool)
    (h : docs ≠ []) :
    (get_documents_by_id (add_documents sys docs d n sv).sys.mem d).map Prod.fst
        = docs.map (fun doc => doc.page_content)
    ∧ get_documents_by_id (add_documents sys docs d n sv).sys.mem d
        = (enrich docs d n).map (fun doc => (doc.page_content, doc.metadata))
    ∧ (get_documents_by_id (add_documents sys docs d n sv).sys.mem d).map Prod.snd
        = docs.enum.map (fun p =>
            dictInsert (str "created_at") n
              (dictInsert (str "document_id") d
                (dictInsert (str "doc_id") (d ++ str "_" ++ natStr p.1) p.2.metadata))) := by
  have hget := get_after_add sys docs d n sv h
  refine ⟨?_, hget, ?_⟩
  · rw [hget, List.map_map]
    have : ((fun p : Str × List (Str × Str) => p.1) ∘
        (fun doc : Doc => (doc.page_content, doc.metadata)))
        = fun doc : Doc => doc.page_content := rfl
    rw [this, enrich_map_content]
  · rw [hget, List.map_map]
    have : ((fun p : Str × List (Str × Str) => p.2) ∘
        (fun doc : Doc => (doc.page_content, doc.metadata)))
        = fun doc : Doc => doc.metadata := rfl
    rw [this, enrich_map_metadata]

/-- Witness for C9 (amended) on the concrete one-chunk ingestion: the
fetched contents equal the submitted contents. -/
theorem C9_amended_roundtrip_witness :
    (get_documents_by_id (add_documents sys0 docs0 (str "d1") (str "t0") true).sys.mem
        (str "d1")).map Prod.fst
      = docs0.map (fun doc => doc.page_content) :=
  (C9_amended_roundtrip sys0 docs0 (str "d1") (str "t0") true (by decide)).1

/-- Claim C10: the restricted per-document search takes no score threshold
and applies none — every returned chunk has raw score at least `1`, and
carries at least one query token of length `> 1` occurring in its
lower-cased content; zero-match chunks are never returned. -/
theorem C10_restricted_no_threshold (st : RAGState) (question document_id : Str)
    (k : Nat) (hit : RawHit)
    (h : hit ∈ search_in_specific_document st question document_id k) :
    1 ≤ hit.score
    ∧ ∃ w ∈ splitWs (lower question), 1 < w.length
        ∧ containsSub w (lower hit.content) = true := by
  obtain ⟨hpos, hs⟩ := search_specific_hit_spec st question document_id k hit h
  refine ⟨hpos, ?_⟩
  rw [hs, rawScore] at hpos
  obtain ⟨w, hw, hwpos⟩ := exists_pos_of_sum_pos _ _ hpos
  by_cases hlen : 1 < w.length
  · refine ⟨w, hw, hlen, ?_⟩
    rw [if_pos hlen] at hwpos
    exact containsSub_of_countOcc_pos hwpos
  · rw [if_neg hlen] at hwpos
    omega

/-- Witness for C10 at the scenario store: the returned "apple pie" chunk
has score at least 1 and contains the query token "apple". -/
theorem C10_restricted_no_threshold_witness :
    1 ≤ (RawHit.mk (str "apple pie") [] 1).score
    ∧ ∃ w ∈ splitWs (lower (str "apple")), 1 < w.length
        ∧ containsSub w (lower (RawHit.mk (str "apple pie") [] 1).content) = true :=
  C10_restricted_no_threshold store2 (str "apple") (str "docB") 5
    ⟨str "apple pie", [], 1⟩ (by decide)
